import Mathlib

/-!
Shallow embedding of the identity-resolution-api service (src/src/index.ts).

Modelling conventions:
* The `contact` table is a list of rows kept in insertion order; a SQL
  `SELECT` without `ORDER BY` returns the rows in table order, `INSERT`
  appends a row, and `UPDATE` rewrites the matching rows in place.
* SQL `NULL` is `Option.none`.  A field absent from the JSON request body
  (JS `undefined`) is also `Option.none` on the input side; JS strict
  equality `===` between an absent input field and a stored `NULL` is
  `false` (`undefined === null` is `false`), which `jsStrictEq` captures,
  and a SQL comparison `col = NULL` never holds, which `sqlValEq` captures.
* Timestamps are naturals; `NOW()` is an explicit `now` argument.
* `express`/`pg` plumbing is dropped; each route handler becomes a function
  from the table state to the new table state plus the HTTP outcome.
  A thrown exception caught by a handler's `catch` block is the
  `.internal` outcome (HTTP 500).
-/

structure Contact where
  id : Nat
  email : Option String
  phonenumber : Option String
  linkprecedence : String
  linkedid : Option Nat
  createdat : Nat
  updatedat : Nat
  deletedat : Option Nat
deriving Repr, DecidableEq

abbrev DB := List Contact

/-- The body of `POST /identify`: `{email?, phoneNumber?}`; `none` models an
absent (JS `undefined`) field. -/
structure IdentifyInput where
  email : Option String
  phoneNumber : Option String
deriving Repr, DecidableEq

/-- The consolidated view produced by `buildResponse`. -/
structure IdentityView where
  primaryContactId : Nat
  emails : List String
  phoneNumbers : List String
  secondaryContactIds : List Nat
deriving Repr, DecidableEq

inductive ApiError where
  | invalidRequest
  | notFound
  | confirmationRequired
  | internal
deriving Repr, DecidableEq

instance {ε α : Type} [DecidableEq ε] [DecidableEq α] :
    DecidableEq (Except ε α) := fun a b =>
  match a, b with
  | .ok x, .ok y =>
    if h : x = y then .isTrue (congrArg Except.ok h)
    else .isFalse (fun hh => h (by injection hh))
  | .error x, .error y =>
    if h : x = y then .isTrue (congrArg Except.error h)
    else .isFalse (fun hh => h (by injection hh))
  | .ok _, .error _ => .isFalse (fun hh => by injection hh)
  | .error _, .ok _ => .isFalse (fun hh => by injection hh)

/-- JS truthiness test used by `if (!email && !phoneNumber)`: `undefined`,
`null` and the empty string are falsy. -/
def jsFalsy : Option String → Bool
  | none => true
  | some s => s == ""

/-- SQL `col = $v`: never holds when either side is `NULL`/absent. -/
def sqlValEq (v : Option String) (col : Option String) : Bool :=
  match v, col with
  | some a, some b => a == b
  | _, _ => false

/-- JS `===` between a request field and a stored column value:
`undefined === null` is `false`, so an absent input matches nothing. -/
def jsStrictEq (v : Option String) (col : Option String) : Bool :=
  match v, col with
  | some a, some b => a == b
  | _, _ => false

def isPrimaryc (c : Contact) : Bool := c.linkprecedence == "primary"

def isActive (c : Contact) : Bool := c.deletedat == none

/-- The candidate `SELECT` of `/identify`:
`WHERE (email = $1 OR phonenumber = $2) AND deletedat IS NULL`. -/
def matchesInput (inp : IdentifyInput) (c : Contact) : Bool :=
  (sqlValEq inp.email c.email || sqlValEq inp.phoneNumber c.phonenumber)
    && isActive c

def candidatesOf (db : DB) (inp : IdentifyInput) : List Contact :=
  db.filter (matchesInput inp)

def primariesOf (db : DB) (inp : IdentifyInput) : List Contact :=
  (candidatesOf db inp).filter isPrimaryc

/-- Stable insertion step modelling JS `Array.prototype.sort` with the
comparator `(a, b) => createdat(a) - createdat(b)`: `a` goes after every
already-placed element whose `createdat` is `≤ a.createdat`, so elements
with equal keys keep their original relative order (sort is stable per
ES2019). -/
def insertByCreated (a : Contact) : List Contact → List Contact
  | [] => [a]
  | b :: l => if a.createdat ≤ b.createdat then a :: b :: l
              else b :: insertByCreated a l

def sortByCreated : List Contact → List Contact
  | [] => []
  | a :: l => insertByCreated a (sortByCreated l)

/-- Row-level effect of the demotion `UPDATE ... WHERE id = dId`. -/
def demoteRec (fpId now dId : Nat) (c : Contact) : Contact :=
  if c.id == dId then
    { c with linkprecedence := "secondary", linkedid := some fpId,
             updatedat := now }
  else c

/-- Row-level effect of the child-relink `UPDATE ... WHERE linkedid = dId`. -/
def relinkRec (fpId now dId : Nat) (c : Contact) : Contact :=
  if c.linkedid == some dId then
    { c with linkedid := some fpId, updatedat := now }
  else c

/-- The demotion `UPDATE`:
`SET linkprecedence = 'secondary', linkedid = fpId, updatedat = NOW()
 WHERE id = dId`. -/
def demoteOne (fpId now dId : Nat) (db : DB) : DB :=
  db.map (demoteRec fpId now dId)

/-- The child-relink `UPDATE`:
`SET linkedid = fpId, updatedat = NOW() WHERE linkedid = dId`
(note: no `deletedat IS NULL` guard in the source). -/
def relinkChildren (fpId now dId : Nat) (db : DB) : DB :=
  db.map (relinkRec fpId now dId)

/-- The `for (const demoted of toDemote)` loop: demote, then relink its
children, for each demoted primary in order. -/
def runDemotions (fpId now : Nat) (db : DB) (toDemote : List Contact) : DB :=
  toDemote.foldl (fun db d => relinkChildren fpId now d.id (demoteOne fpId now d.id db)) db

/-- The post-merge re-fetch `SELECT * FROM contact WHERE id = $1 OR
linkedid = $1` (note: no `deletedat IS NULL` guard in the source). -/
def clusterFetch (fpId : Nat) (db : DB) : List Contact :=
  db.filter (fun c => c.id == fpId || c.linkedid == some fpId)

/-- Composite per-row effect of the whole demotion loop over the rows
with ids `dIds`: rows in `dIds` are demoted onto `fpId`, rows linked to
one of them are re-pointed to `fpId`, all others are untouched (proved
equal to `runDemotions` under the loop's preconditions below). -/
def finalRec (fpId now : Nat) (dIds : List Nat) (c : Contact) : Contact :=
  if c.id ∈ dIds then
    { c with linkprecedence := "secondary", linkedid := some fpId,
             updatedat := now }
  else
    match c.linkedid with
    | some j => if j ∈ dIds then
        { c with linkedid := some fpId, updatedat := now }
      else c
    | none => c

/-- Strict (created-at, id) lexicographic order on contacts: the order in
which the spec ranks primaries during a merge. -/
def lexLT (a b : Contact) : Prop :=
  a.createdat < b.createdat ∨ (a.createdat = b.createdat ∧ a.id < b.id)

/-- Step 3 of the handler: if more than one primary matched, sort the
primaries by `createdat`, demote all but the first onto it, and re-fetch
the cluster; otherwise keep the candidate rows.  Returns the table state
and the working `contacts` list. -/
def mergePhase (db : DB) (now : Nat) (candidates : List Contact) :
    DB × List Contact :=
  let primaries := candidates.filter isPrimaryc
  if 1 < primaries.length then
    match sortByCreated primaries with
    | [] => (db, candidates)  -- unreachable: primaries has length ≥ 2
    | fp :: toDemote =>
      let db1 := runDemotions fp.id now db toDemote
      (db1, clusterFetch fp.id db1)
  else (db, candidates)

/-- `Array.from(new Set(xs))`: deduplicate keeping the first occurrence. -/
def dedupFirstAux (seen : List String) : List String → List String
  | [] => []
  | a :: l => if a ∈ seen then dedupFirstAux seen l
              else a :: dedupFirstAux (a :: seen) l

def dedupFirst (l : List String) : List String := dedupFirstAux [] l

/-- `.filter(Boolean)` over column values: drops `NULL` and the empty
string (both falsy in JS). -/
def truthyVals (l : List (Option String)) : List String :=
  (l.filterMap id).filter (fun s => s != "")

/-- `buildResponse`: `none` models the `TypeError` thrown when
`contacts.find(c => c.linkprecedence === "primary")` yields `undefined`
and `.id` is read from it (caught upstream as HTTP 500). -/
def buildResponse (contacts : List Contact) : Option IdentityView :=
  match contacts.find? isPrimaryc with
  | none => none
  | some primary => some
      { primaryContactId := primary.id
        emails := dedupFirst (truthyVals (contacts.map (·.email)))
        phoneNumbers := dedupFirst (truthyVals (contacts.map (·.phonenumber)))
        secondaryContactIds :=
          (contacts.filter (fun c => c.linkprecedence == "secondary")).map (·.id) }

def respond (contacts : List Contact) : Except ApiError IdentityView :=
  match buildResponse contacts with
  | none => .error .internal
  | some v => .ok v

/-- Step 4 + 5 of the handler: conditionally insert a new secondary row
(carrying the raw input pair, an omitted field stored as `NULL`), then
build the response from the working list. -/
def insertPhase (db1 : DB) (contacts : List Contact) (nid now : Nat)
    (inp : IdentifyInput) : DB × Except ApiError IdentityView :=
  let emailExists := contacts.any (fun c => jsStrictEq inp.email c.email)
  let phoneExists := contacts.any (fun c => jsStrictEq inp.phoneNumber c.phonenumber)
  if !emailExists || !phoneExists then
    match contacts.find? isPrimaryc with
    | none => (db1, .error .internal)
    | some primary =>
      let newRec : Contact :=
        ⟨nid, inp.email, inp.phoneNumber, "secondary", some primary.id,
         now, now, none⟩
      (db1 ++ [newRec], respond (contacts ++ [newRec]))
  else (db1, respond contacts)

/-- `POST /identify`.  `nid` is the id the store would assign to an
inserted row; at most one row is inserted per call. -/
def identify (db : DB) (nid now : Nat) (inp : IdentifyInput) :
    DB × Except ApiError IdentityView :=
  if jsFalsy inp.email && jsFalsy inp.phoneNumber then
    (db, .error .invalidRequest)
  else
    let candidates := candidatesOf db inp
    if candidates.isEmpty then
      let newRec : Contact :=
        ⟨nid, inp.email, inp.phoneNumber, "primary", none, now, now, none⟩
      (db ++ [newRec], respond [newRec])
    else
      let st := mergePhase db now candidates
      insertPhase st.1 st.2 nid now inp

/-- The surviving primary the handler would pick (head of the sorted
primaries). -/
def survivorOf (db : DB) (inp : IdentifyInput) : Option Contact :=
  (sortByCreated (primariesOf db inp)).head?

/-- The primaries the handler would demote (tail of the sorted primaries). -/
def demotedOf (db : DB) (inp : IdentifyInput) : List Contact :=
  (sortByCreated (primariesOf db inp)).tail

/-- `SELECT * FROM contact WHERE id = $1` specialised to first match. -/
def lookupId (db : DB) (i : Nat) : Option Contact :=
  db.find? (fun c => c.id == i)

/-- Soft-delete `UPDATE ... SET deletedat = NOW(), updatedat = NOW()`
over the rows satisfying `p`. -/
def softDeleteWhere (now : Nat) (p : Contact → Bool) (db : DB) : DB :=
  db.map (fun c => if p c then
    { c with deletedat := some now, updatedat := now }
  else c)

/-- `DELETE /contacts/:id`.  The `remainingSecondaries` query in the
secondary branch of the source only feeds a `console.log` and performs no
mutation, so it has no observable effect here. -/
def deleteOne (db : DB) (now contactId : Nat) :
    DB × Except ApiError Nat :=
  match db.find? (fun c => c.id == contactId && isActive c) with
  | none => (db, .error .notFound)
  | some contact =>
    let db1 :=
      if contact.linkprecedence == "primary" then
        softDeleteWhere now
          (fun c => c.linkedid == some contactId && isActive c) db
      else db
    let db2 := softDeleteWhere now (fun c => c.id == contactId) db1
    (db2, .ok contactId)

/-- `DELETE /contacts?confirm=...`; `confirm` is the raw query parameter
(`none` when absent).  On success the reported count is the `UPDATE`'s
row count, i.e. the number of active rows it touched. -/
def deleteAll (db : DB) (now : Nat) (confirm : Option String) :
    DB × Except ApiError Nat :=
  if confirm != some "true" then (db, .error .confirmationRequired)
  else
    ((softDeleteWhere now isActive db), .ok (db.filter isActive).length)

/-- Well-formedness of a table state: ids strictly increase in table
order (a `SERIAL` key over append-only inserts), the precedence column
satisfies its CHECK constraint, and a primary row has no linked id. -/
def WellFormed (db : DB) : Prop :=
  List.Pairwise (fun a b => a.id < b.id) db ∧
  (∀ c ∈ db, c.linkprecedence = "primary" ∨ c.linkprecedence = "secondary") ∧
  (∀ c ∈ db, c.linkprecedence = "primary" → c.linkedid = none)

/-!
Fault-injected model of `/identify`.  The handler issues its SQL
statements one by one on an autocommitting connection (no
`BEGIN`/`COMMIT` appears in the source); `failAt` is the 0-based index of
the statement that throws.  Statements before it commit individually; the
`catch` block then answers 500 without undoing anything, so the function
returns whatever table state the earlier statements left behind.
-/

/-- The demote/relink loop under fault injection: `k` statements still
succeed.  Yields `Sum.inr db` when a statement inside the loop throws,
with `db` the state already committed. -/
def demoteStepsF (fpId now : Nat) : List Contact → DB → Nat → (DB × Nat) ⊕ DB
  | [], db, k => .inl (db, k)
  | _ :: _, db, 0 => .inr db
  | d :: _, db, 1 => .inr (demoteOne fpId now d.id db)
  | d :: rest, db, (k + 2) =>
      demoteStepsF fpId now rest
        (relinkChildren fpId now d.id (demoteOne fpId now d.id db)) k

/-- Step 4 + 5 under fault injection (`k` = statements still succeeding
when the phase starts; only the conditional `INSERT` can throw here). -/
def insertPhaseF (db1 : DB) (contacts : List Contact) (nid now : Nat)
    (inp : IdentifyInput) (k : Nat) : DB × Except ApiError IdentityView :=
  let emailExists := contacts.any (fun c => jsStrictEq inp.email c.email)
  let phoneExists := contacts.any (fun c => jsStrictEq inp.phoneNumber c.phonenumber)
  if !emailExists || !phoneExists then
    match contacts.find? isPrimaryc with
    | none => (db1, .error .internal)
    | some primary =>
      match k with
      | 0 => (db1, .error .internal)
      | _ + 1 =>
        let newRec : Contact :=
          ⟨nid, inp.email, inp.phoneNumber, "secondary", some primary.id,
           now, now, none⟩
        (db1 ++ [newRec], respond (contacts ++ [newRec]))
  else (db1, respond contacts)

/-- `POST /identify` where the `failAt`-th issued SQL statement throws
(`failAt` larger than the number of statements: nothing fails). -/
def identifyF (db : DB) (nid now : Nat) (inp : IdentifyInput)
    (failAt : Nat) : DB × Except ApiError IdentityView :=
  if jsFalsy inp.email && jsFalsy inp.phoneNumber then
    (db, .error .invalidRequest)
  else
    match failAt with
    | 0 => (db, .error .internal)  -- the candidate SELECT throws
    | k + 1 =>
      let candidates := candidatesOf db inp
      if candidates.isEmpty then
        match k with
        | 0 => (db, .error .internal)  -- the primary INSERT throws
        | _ + 1 =>
          let newRec : Contact :=
            ⟨nid, inp.email, inp.phoneNumber, "primary", none, now, now, none⟩
          (db ++ [newRec], respond [newRec])
      else
        let primaries := candidates.filter isPrimaryc
        if 1 < primaries.length then
          match sortByCreated primaries with
          | [] => insertPhaseF db candidates nid now inp k
          | fp :: toDemote =>
            match demoteStepsF fp.id now toDemote db k with
            | .inr dbBad => (dbBad, .error .internal)
            | .inl (db1, k1) =>
              match k1 with
              | 0 => (db1, .error .internal)  -- the re-fetch SELECT throws
              | k2 + 1 =>
                insertPhaseF db1 (clusterFetch fp.id db1) nid now inp k2
        else insertPhaseF db candidates nid now inp k

/-! ### Concrete table states used by counterexamples and witnesses -/

/-- A primary `(a, p)` with one secondary `(a, q)` attached to it. -/
def pairCluster : DB :=
  [⟨1, some "a", some "p", "primary", none, 0, 0, none⟩,
   ⟨2, some "a", some "q", "secondary", some 1, 1, 1, none⟩]

/-- A primary `(a, p)` with a secondary `(b, q)` attached to it. -/
def bridgedCluster : DB :=
  [⟨1, some "a", some "p", "primary", none, 0, 0, none⟩,
   ⟨2, some "b", some "q", "secondary", some 1, 1, 1, none⟩]

/-- Two independent primaries. -/
def twoPrimariesDb : DB :=
  [⟨1, some "a", some "p", "primary", none, 0, 0, none⟩,
   ⟨2, some "b", some "q", "primary", none, 1, 1, none⟩]

/-- Two independent primaries, the later one carrying a soft-deleted
secondary. -/
def twoPrimariesDeletedChildDb : DB :=
  [⟨1, some "a", some "p", "primary", none, 0, 0, none⟩,
   ⟨2, some "b", some "q", "primary", none, 1, 1, none⟩,
   ⟨3, some "x", some "y", "secondary", some 2, 2, 2, some 2⟩]

/-- A single primary `(a, p)`. -/
def singlePrimaryDb : DB :=
  [⟨1, some "a", some "p", "primary", none, 0, 0, none⟩]

/-! ### General lemmas about the store model -/

theorem mem_id_inj {db : DB} (hpair : List.Pairwise (fun a b : Contact => a.id ≠ b.id) db)
    {a b : Contact} (ha : a ∈ db) (hb : b ∈ db) (h : a.id = b.id) : a = b := by
  induction db with
  | nil => cases ha
  | cons c l ih =>
    rcases List.pairwise_cons.mp hpair with ⟨hc, hl⟩
    rcases List.mem_cons.mp ha with rfl | ha'
    · rcases List.mem_cons.mp hb with rfl | hb'
      · rfl
      · exact absurd h (hc b hb')
    · rcases List.mem_cons.mp hb with rfl | hb'
      · exact absurd h.symm (hc a ha')
      · exact ih hl ha' hb'

theorem find?_id_and (db : DB) (t : Contact) (p : Contact → Bool)
    (hpair : List.Pairwise (fun a b : Contact => a.id ≠ b.id) db)
    (ht : t ∈ db) (hp : p t = true) :
    db.find? (fun c => c.id == t.id && p c) = some t := by
  induction db with
  | nil => cases ht
  | cons c l ih =>
    rcases List.pairwise_cons.mp hpair with ⟨hc, hl⟩
    by_cases hid : c.id = t.id
    · have hct : c = t := by
        rcases List.mem_cons.mp ht with rfl | ht'
        · rfl
        · exact absurd hid (hc t ht')
      subst hct
      simp [List.find?, hp]
    · have ht' : t ∈ l := by
        rcases List.mem_cons.mp ht with rfl | ht'
        · exact absurd rfl hid
        · exact ht'
      have : (c.id == t.id) = false := by
        simp [hid]
      simp [List.find?, this]
      exact ih hl ht'

theorem pairwise_id_ne_of_lt {db : DB}
    (h : List.Pairwise (fun a b : Contact => a.id < b.id) db) :
    List.Pairwise (fun a b : Contact => a.id ≠ b.id) db :=
  h.imp (fun hlt => Nat.ne_of_lt hlt)

theorem mem_insertByCreated {a x : Contact} {l : List Contact} :
    x ∈ insertByCreated a l ↔ x = a ∨ x ∈ l := by
  induction l with
  | nil => simp [insertByCreated]
  | cons b l ih =>
    unfold insertByCreated
    by_cases h : a.createdat ≤ b.createdat
    · simp [h]
    · simp only [if_neg h, List.mem_cons, ih]
      tauto

theorem insertByCreated_perm (a : Contact) (l : List Contact) :
    (insertByCreated a l).Perm (a :: l) := by
  induction l with
  | nil => exact List.Perm.refl _
  | cons b l ih =>
    unfold insertByCreated
    by_cases h : a.createdat ≤ b.createdat
    · rw [if_pos h]
    · rw [if_neg h]
      exact (ih.cons b).trans (List.Perm.swap a b l)

theorem sortByCreated_perm (l : List Contact) :
    (sortByCreated l).Perm l := by
  induction l with
  | nil => exact List.Perm.refl _
  | cons a l ih =>
    exact (insertByCreated_perm a (sortByCreated l)).trans (ih.cons a)

theorem insertByCreated_pairwise_lex {a : Contact} {L : List Contact}
    (hL : L.Pairwise lexLT) (hid : ∀ b ∈ L, a.id < b.id) :
    (insertByCreated a L).Pairwise lexLT := by
  induction L with
  | nil => simp [insertByCreated, List.pairwise_singleton]
  | cons b L ih =>
    rcases List.pairwise_cons.mp hL with ⟨hbL, hLp⟩
    unfold insertByCreated
    by_cases h : a.createdat ≤ b.createdat
    · rw [if_pos h]
      refine List.pairwise_cons.mpr ⟨?_, hL⟩
      intro x hx
      rcases List.mem_cons.mp hx with rfl | hx'
      · rcases Nat.lt_or_ge a.createdat x.createdat with hlt | hge
        · exact Or.inl hlt
        · exact Or.inr ⟨Nat.le_antisymm h hge, hid x (List.mem_cons_self _ _)⟩
      · rcases hbL x hx' with hbx | ⟨hbe, _⟩
        · exact Or.inl (Nat.lt_of_le_of_lt h hbx)
        · rcases Nat.lt_or_ge a.createdat b.createdat with hlt | hge
          · exact Or.inl (hbe ▸ hlt)
          · exact Or.inr ⟨(Nat.le_antisymm h hge).trans hbe,
              hid x (List.mem_cons_of_mem b hx')⟩
    · rw [if_neg h]
      refine List.pairwise_cons.mpr ⟨?_, ih hLp
        (fun b' hb' => hid b' (List.mem_cons_of_mem b hb'))⟩
      intro y hy
      rcases mem_insertByCreated.mp hy with rfl | hy'
      · exact Or.inl (Nat.lt_of_not_le h)
      · exact hbL y hy'

theorem sortByCreated_pairwise_lex {l : List Contact}
    (h : l.Pairwise (fun a b : Contact => a.id < b.id)) :
    (sortByCreated l).Pairwise lexLT := by
  induction l with
  | nil => exact List.Pairwise.nil
  | cons a l ih =>
    rcases List.pairwise_cons.mp h with ⟨hal, hlp⟩
    refine insertByCreated_pairwise_lex (ih hlp) ?_
    intro b hb
    exact hal b ((sortByCreated_perm l).mem_iff.mp hb)

theorem runDemotions_eq_map (fpId now : Nat) (db : DB) (ds : List Contact) :
    runDemotions fpId now db ds =
    db.map (fun c => ds.foldl
      (fun c d => relinkRec fpId now d.id (demoteRec fpId now d.id c)) c) := by
  induction ds generalizing db with
  | nil => simp [runDemotions]
  | cons d rest ih =>
    unfold runDemotions at ih ⊢
    rw [List.foldl_cons, ih]
    unfold relinkChildren demoteOne
    rw [List.map_map, List.map_map]
    apply List.map_congr_left
    intro c _
    simp [Function.comp]

theorem foldl_step_eq_finalRec (fpId now : Nat) (ds : List Contact)
    (c : Contact)
    (hfp : fpId ∉ ds.map (·.id)) (hnd : (ds.map (·.id)).Nodup) :
    ds.foldl (fun c d => relinkRec fpId now d.id (demoteRec fpId now d.id c)) c =
    finalRec fpId now (ds.map (·.id)) c := by
  induction ds generalizing c with
  | nil =>
    cases hl : c.linkedid <;> simp [finalRec, hl]
  | cons d rest ih =>
    simp only [List.map_cons] at hfp hnd ⊢
    have hfp1 : fpId ≠ d.id := by
      intro hh
      exact hfp (by rw [hh]; exact List.mem_cons_self _ _)
    have hfp2 : fpId ∉ rest.map (·.id) := by
      intro hh
      exact hfp (List.mem_cons_of_mem _ hh)
    have hnd1 : d.id ∉ rest.map (·.id) := (List.nodup_cons.mp hnd).1
    have hnd2 : (rest.map (·.id)).Nodup := (List.nodup_cons.mp hnd).2
    rw [List.foldl_cons]
    by_cases h1 : c.id = d.id
    · have hstep : relinkRec fpId now d.id (demoteRec fpId now d.id c) =
          { c with linkprecedence := "secondary", linkedid := some fpId,
                   updatedat := now } := by
        simp [demoteRec, relinkRec, h1, hfp1]
      rw [hstep, ih _ hfp2 hnd2]
      unfold finalRec
      rw [if_neg (by simpa [h1] using hnd1), if_pos (by simp [h1])]
      simp [hfp2]
    · by_cases h2 : c.linkedid = some d.id
      · have hstep : relinkRec fpId now d.id (demoteRec fpId now d.id c) =
            { c with linkedid := some fpId, updatedat := now } := by
          simp [demoteRec, relinkRec, h1, h2]
        rw [hstep, ih _ hfp2 hnd2]
        by_cases h3 : c.id ∈ rest.map (·.id)
        · unfold finalRec
          rw [if_pos (by simpa using h3), if_pos (by simp [h3])]
        · unfold finalRec
          rw [if_neg (by simpa using h3),
              if_neg (by simp [h1, h3])]
          simp [h2, hfp2]
      · have hstep : relinkRec fpId now d.id (demoteRec fpId now d.id c) = c := by
          simp [demoteRec, relinkRec, h1, h2]
        rw [hstep, ih _ hfp2 hnd2]
        unfold finalRec
        by_cases h3 : c.id ∈ rest.map (·.id)
        · rw [if_pos h3, if_pos (List.mem_cons_of_mem _ h3)]
        · rw [if_neg h3, if_neg (by simp [h1, h3])]
          cases hl : c.linkedid with
          | none => rfl
          | some j =>
            have hj : j ≠ d.id := by
              intro hh
              exact h2 (by rw [hl, hh])
            by_cases h4 : j ∈ rest.map (·.id)
            · simp [h4]
            · simp [h4, hj]

theorem finalRec_id (fpId now : Nat) (dIds : List Nat) (c : Contact) :
    (finalRec fpId now dIds c).id = c.id := by
  unfold finalRec
  by_cases h : c.id ∈ dIds
  · simp [h]
  · rw [if_neg h]
    cases hl : c.linkedid with
    | none => rfl
    | some j =>
      by_cases hj : j ∈ dIds
      · simp [hj]
      · simp [hj]

theorem lookupId_map_of_id (F : Contact → Contact)
    (hF : ∀ c, (F c).id = c.id) (db : DB) (i : Nat) :
    lookupId (db.map F) i = (lookupId db i).map F := by
  induction db with
  | nil => rfl
  | cons c l ih =>
    simp only [lookupId, List.map_cons, List.find?_cons, hF c] at *
    cases h : (c.id == i)
    · simpa [h] using ih
    · simp [h]

theorem lookupId_of_mem {db : DB} {t : Contact}
    (hpair : List.Pairwise (fun a b : Contact => a.id ≠ b.id) db)
    (ht : t ∈ db) : lookupId db t.id = some t := by
  induction db with
  | nil => cases ht
  | cons c l ih =>
    rcases List.pairwise_cons.mp hpair with ⟨hc, hl⟩
    by_cases hid : c.id = t.id
    · have hct : c = t := by
        rcases List.mem_cons.mp ht with rfl | ht'
        · rfl
        · exact absurd hid (hc t ht')
      subst hct
      simp [lookupId, List.find?_cons]
    · have ht' : t ∈ l := by
        rcases List.mem_cons.mp ht with rfl | h
        · exact absurd rfl hid
        · exact h
      simpa [lookupId, List.find?_cons, hid] using ih hl ht'

theorem lookupId_append_of_some {db db' : DB} {i : Nat} {x : Contact}
    (h : lookupId db i = some x) : lookupId (db ++ db') i = some x := by
  induction db with
  | nil => cases h
  | cons c l ih =>
    cases hc : (c.id == i)
    · simp only [lookupId, List.cons_append, List.find?_cons, hc] at h ⊢
      exact ih h
    · simp only [lookupId, List.cons_append, List.find?_cons, hc] at h ⊢
      exact h

theorem respond_ok_of_primary {l : List Contact}
    (h : ∃ x ∈ l, isPrimaryc x = true) : ∃ v, respond l = .ok v := by
  have hs : (l.find? isPrimaryc).isSome := List.find?_isSome.mpr h
  rcases Option.isSome_iff_exists.mp hs with ⟨y, hy⟩
  unfold respond buildResponse
  rw [hy]
  exact ⟨_, rfl⟩

theorem respond_eq_ok {l : List Contact} {v : IdentityView} :
    respond l = .ok v ↔ buildResponse l = some v := by
  unfold respond
  cases h : buildResponse l <;> simp

theorem not_mem_seen_of_mem_dedupFirstAux {seen l : List String} {a : String}
    (h : a ∈ dedupFirstAux seen l) : a ∉ seen := by
  induction l generalizing seen with
  | nil => cases h
  | cons b l ih =>
    unfold dedupFirstAux at h
    by_cases hb : b ∈ seen
    · exact ih (by simpa [hb] using h)
    · rw [if_neg hb] at h
      rcases List.mem_cons.mp h with rfl | h'
      · exact hb
      · intro ha
        exact ih h' (List.mem_cons_of_mem b ha)

theorem nodup_dedupFirstAux (seen l : List String) :
    (dedupFirstAux seen l).Nodup := by
  induction l generalizing seen with
  | nil => exact List.nodup_nil
  | cons b l ih =>
    unfold dedupFirstAux
    by_cases hb : b ∈ seen
    · simpa [hb] using ih seen
    · rw [if_neg hb]
      exact List.nodup_cons.mpr
        ⟨fun hmem => (not_mem_seen_of_mem_dedupFirstAux hmem) (List.mem_cons_self b seen),
         ih (b :: seen)⟩

theorem dedupFirst_nodup (l : List String) : (dedupFirst l).Nodup :=
  nodup_dedupFirstAux [] l

theorem dedupFirst_cons_head (a : String) (l : List String) :
    (dedupFirst (a :: l)).head? = some a := by
  unfold dedupFirst dedupFirstAux
  simp

/-! ### Claim theorems: lifecycle manager -/

/-- C8: deleting an active primary record soft-deletes it together with
every active record linked to it, and afterwards no record of that
cluster (the target or anything pointing at it) is active. -/
theorem deleteOne_primary_cascade (db : DB) (now : Nat) (t : Contact)
    (hpair : List.Pairwise (fun a b : Contact => a.id < b.id) db)
    (ht : t ∈ db) (hact : t.deletedat = none)
    (hpri : t.linkprecedence = "primary") (hlink : t.linkedid = none) :
    deleteOne db now t.id =
      (db.map (fun c =>
        if c.id == t.id || (c.linkedid == some t.id && isActive c) then
          { c with deletedat := some now, updatedat := now } else c), .ok t.id) ∧
    ∀ c' ∈ (deleteOne db now t.id).1,
      (c'.id = t.id ∨ c'.linkedid = some t.id) → c'.deletedat ≠ none := by
  have hne := pairwise_id_ne_of_lt hpair
  have hfind : db.find? (fun c => c.id == t.id && isActive c) = some t :=
    find?_id_and db t isActive hne ht (by simp [isActive, hact])
  have hpri' : (t.linkprecedence == "primary") = true := by simp [hpri]
  have hmain : deleteOne db now t.id =
      (db.map (fun c =>
        if c.id == t.id || (c.linkedid == some t.id && isActive c) then
          { c with deletedat := some now, updatedat := now } else c), .ok t.id) := by
    unfold deleteOne
    rw [hfind]
    simp only [hpri', if_pos]
    unfold softDeleteWhere
    rw [List.map_map]
    congr 1
    apply List.map_congr_left
    intro c hc
    by_cases hid : c.id = t.id
    · have hct : c = t := mem_id_inj hne hc ht hid
      subst hct
      simp [Function.comp, hlink, isActive]
    · have hid' : (c.id == t.id) = false := by simp [hid]
      by_cases hcas : (c.linkedid == some t.id && isActive c) = true
      · simp [Function.comp, hcas, hid']
      · simp only [Bool.not_eq_true] at hcas
        simp [Function.comp, hcas, hid']
  refine ⟨hmain, ?_⟩
  intro c' hc' hcl
  rw [hmain] at hc'
  simp only at hc'
  rcases List.mem_map.mp hc' with ⟨c, hcdb, rfl⟩
  by_cases hcond : (c.id == t.id || (c.linkedid == some t.id && isActive c)) = true
  · simp [hcond]
  · rw [if_neg (by simp [hcond])] at hcl ⊢
    simp only [Bool.or_eq_true, Bool.and_eq_true, beq_iff_eq, not_or,
      Bool.not_eq_true] at hcond
    rcases hcl with hcl | hcl
    · exact absurd hcl hcond.1
    · have hfa : isActive c = false := by simpa [hcl] using hcond.2
      simpa [isActive] using hfa

/-- C8 witness: the cascade theorem applied to a concrete two-record
cluster. -/
theorem deleteOne_primary_cascade_witness :
    List.Pairwise (fun a b : Contact => a.id < b.id) pairCluster ∧
    (deleteOne pairCluster 5 1).2 = .ok 1 ∧
    ∀ c' ∈ (deleteOne pairCluster 5 1).1, c'.deletedat ≠ none := by
  have h := deleteOne_primary_cascade pairCluster 5
    ⟨1, some "a", some "p", "primary", none, 0, 0, none⟩
    (by decide) (by decide) (by decide) (by decide) (by decide)
  have hlist : (deleteOne pairCluster 5 1).1 =
      [⟨1, some "a", some "p", "primary", none, 0, 5, some 5⟩,
       ⟨2, some "a", some "q", "secondary", some 1, 1, 5, some 5⟩] := by decide
  refine ⟨by decide, ?_, ?_⟩
  · rw [h.1]
  · intro c' hc'
    refine h.2 c' hc' ?_
    rw [hlist] at hc'
    simp only [List.mem_cons, List.not_mem_nil, or_false] at hc'
    rcases hc' with rfl | rfl
    · exact Or.inl rfl
    · exact Or.inr rfl

/-- C9: deleting an active secondary record sets only that record's
deleted-at (and updated-at); every other record is untouched, and every
record that is primary afterwards was already present unchanged — no
secondary is promoted. -/
theorem deleteOne_secondary_frame (db : DB) (now : Nat) (t : Contact)
    (hpair : List.Pairwise (fun a b : Contact => a.id < b.id) db)
    (ht : t ∈ db) (hact : t.deletedat = none)
    (hsec : t.linkprecedence = "secondary") :
    deleteOne db now t.id =
      (db.map (fun c => if c.id == t.id then
        { c with deletedat := some now, updatedat := now } else c), .ok t.id) ∧
    (∀ c ∈ db, c.id ≠ t.id → c ∈ (deleteOne db now t.id).1) ∧
    (∀ c' ∈ (deleteOne db now t.id).1,
      c'.linkprecedence = "primary" → c' ∈ db) := by
  have hne := pairwise_id_ne_of_lt hpair
  have hfind : db.find? (fun c => c.id == t.id && isActive c) = some t :=
    find?_id_and db t isActive hne ht (by simp [isActive, hact])
  have hnp : (t.linkprecedence == "primary") = false := by simp [hsec]
  have hmain : deleteOne db now t.id =
      (db.map (fun c => if c.id == t.id then
        { c with deletedat := some now, updatedat := now } else c), .ok t.id) := by
    unfold deleteOne
    rw [hfind]
    simp [hnp, softDeleteWhere]
  refine ⟨hmain, ?_, ?_⟩
  · intro c hc hne'
    rw [hmain]
    refine List.mem_map.mpr ⟨c, hc, ?_⟩
    simp [hne']
  · intro c' hc' hpri'
    rw [hmain] at hc'
    rcases List.mem_map.mp hc' with ⟨c, hcdb, rfl⟩
    by_cases hid : (c.id == t.id) = true
    · have hct : c = t := mem_id_inj hne hcdb ht (by simpa using hid)
      subst hct
      rw [if_pos hid] at hpri'
      simp only at hpri'
      rw [hsec] at hpri'
      exact absurd hpri' (by decide)
    · rw [if_neg hid]
      rw [if_neg hid] at hpri'
      exact hcdb

/-- C9 witness: deleting the secondary of a two-record cluster leaves the
primary untouched. -/
theorem deleteOne_secondary_frame_witness :
    List.Pairwise (fun a b : Contact => a.id < b.id) pairCluster ∧
    (⟨1, some "a", some "p", "primary", none, 0, 0, none⟩ : Contact) ∈
      (deleteOne pairCluster 5 2).1 := by
  have h := deleteOne_secondary_frame pairCluster 5
    ⟨2, some "a", some "q", "secondary", some 1, 1, 1, none⟩
    (by decide) (by decide) (by decide) (by decide)
  exact ⟨by decide, h.2.1 _ (by decide) (by decide)⟩

/-- C10: `DELETE /contacts` with a confirmation flag other than exactly
`"true"` fails with a confirmation-required error and mutates nothing;
with `"true"` it soft-deletes every active record, reports the number of
rows that were active before the call, and leaves no active record. -/
theorem deleteAll_gate (db : DB) (now : Nat) (confirm : Option String) :
    (confirm ≠ some "true" →
      deleteAll db now confirm = (db, .error .confirmationRequired)) ∧
    (confirm = some "true" →
      (deleteAll db now confirm).2 = .ok ((db.filter isActive).length) ∧
      ((deleteAll db now confirm).1).length = db.length ∧
      ∀ c' ∈ (deleteAll db now confirm).1, c'.deletedat ≠ none) := by
  constructor
  · intro h
    have hb : (confirm != some "true") = true := by simpa [bne] using h
    simp [deleteAll, hb]
  · intro h
    subst h
    refine ⟨rfl, by simp [deleteAll, softDeleteWhere], ?_⟩
    intro c' hc'
    have hc'' : c' ∈ List.map (fun c => if isActive c then
        { c with deletedat := some now, updatedat := now } else c) db := by
      simpa [deleteAll, softDeleteWhere] using hc'
    rcases List.mem_map.mp hc'' with ⟨c, hcdb, rfl⟩
    by_cases hac : isActive c = true
    · simp [hac]
    · rw [if_neg (by simpa using hac)]
      simpa [isActive] using hac

/-- C10 witness: the gate theorem applied to a concrete two-record
table, once without and once with confirmation. -/
theorem deleteAll_gate_witness :
    deleteAll pairCluster 7 none = (pairCluster, .error .confirmationRequired) ∧
    (deleteAll pairCluster 7 (some "true")).2 = .ok 2 := by
  have h1 := (deleteAll_gate pairCluster 7 none).1 (by decide)
  have h2 := (deleteAll_gate pairCluster 7 (some "true")).2 rfl
  exact ⟨h1, h2.1.trans (by decide)⟩

/-! ### Claim theorems: cluster resolver -/

/-- C4: a valid request (store up, one field supplied) whose non-empty
candidate set contains no primary record — here a phone number matching
only a secondary — makes the handler's unchecked primary lookup fail, and
the request is answered with a 500 internal error. -/
theorem identify_candidates_without_primary_500 :
    jsFalsy (some "q") = false ∧
    candidatesOf pairCluster ⟨none, some "q"⟩ =
      [⟨2, some "a", some "q", "secondary", some 1, 1, 1, none⟩] ∧
    primariesOf pairCluster ⟨none, some "q"⟩ = [] ∧
    identify pairCluster 3 2 ⟨none, some "q"⟩ =
      (pairCluster, .error .internal) := by decide

/-- C2 counterexample: resolving `(a, r)` against a cluster whose active
secondary `(b, q)` matches neither input field yields a projection that
omits that secondary's email, phone and id entirely — the projection is
computed over the matching records (plus the inserted one), not over the
full cluster. -/
theorem identify_projection_misses_cluster_member :
    lookupId bridgedCluster 2 =
      some ⟨2, some "b", some "q", "secondary", some 1, 1, 1, none⟩ ∧
    identify bridgedCluster 3 2 ⟨some "a", some "r"⟩ =
      (bridgedCluster ++ [⟨3, some "a", some "r", "secondary", some 1, 2, 2, none⟩],
       .ok ⟨1, ["a"], ["p", "r"], [3]⟩) ∧
    ("b" ∈ (["a"] : List String)) = False ∧
    ("q" ∈ (["p", "r"] : List String)) = False ∧
    ((2 : Nat) ∈ ([3] : List Nat)) = False := by
  refine ⟨by decide, by decide, by simp, by simp, by simp⟩

/-- C2 amended: when the candidate set holds at most one primary (so no
merge is triggered), the successful projection is computed from the
candidate records plus at most the one newly inserted secondary; cluster
members outside the candidate set do not contribute.  Only a merge
re-fetches the full cluster. -/
theorem identify_projection_scope (db : DB) (nid now : Nat)
    (inp : IdentifyInput)
    (hcand : candidatesOf db inp ≠ [])
    (hone : ¬ 1 < (primariesOf db inp).length) :
    ∀ v, (identify db nid now inp).2 = .ok v →
      buildResponse (candidatesOf db inp) = some v ∨
      ∃ pid, buildResponse (candidatesOf db inp ++
        [⟨nid, inp.email, inp.phoneNumber, "secondary", some pid,
          now, now, none⟩]) = some v := by
  intro v hv
  unfold identify at hv
  by_cases hfal : (jsFalsy inp.email && jsFalsy inp.phoneNumber) = true
  · rw [if_pos hfal] at hv
    exact absurd hv (by simp)
  · rw [if_neg hfal] at hv
    simp only at hv
    by_cases hemp : (candidatesOf db inp).isEmpty = true
    · exact absurd (List.isEmpty_iff.mp hemp) hcand
    · rw [if_neg hemp] at hv
      have hmp : mergePhase db now (candidatesOf db inp) =
          (db, candidatesOf db inp) := by
        unfold mergePhase
        rw [if_neg (by exact hone)]
      rw [hmp] at hv
      unfold insertPhase at hv
      simp only at hv
      by_cases hins : ((!(candidatesOf db inp).any fun c => jsStrictEq inp.email c.email) ||
          !(candidatesOf db inp).any fun c => jsStrictEq inp.phoneNumber c.phonenumber) = true
      · rw [if_pos hins] at hv
        cases hfp : (candidatesOf db inp).find? isPrimaryc with
        | none =>
          rw [hfp] at hv
          exact absurd hv (by simp)
        | some p =>
          rw [hfp] at hv
          right
          exact ⟨p.id, respond_eq_ok.mp hv⟩
      · rw [if_neg hins] at hv
        left
        exact respond_eq_ok.mp hv

/-- C2 amended witness: the scope theorem applied to the concrete cluster
of the counterexample. -/
theorem identify_projection_scope_witness :
    buildResponse (candidatesOf bridgedCluster ⟨some "a", some "r"⟩) =
      some ⟨1, ["a"], ["p", "r"], [3]⟩ ∨
    ∃ pid, buildResponse (candidatesOf bridgedCluster ⟨some "a", some "r"⟩ ++
      [⟨3, some "a", some "r", "secondary", some pid, 2, 2, none⟩]) =
      some ⟨1, ["a"], ["p", "r"], [3]⟩ :=
  identify_projection_scope bridgedCluster 3 2 ⟨some "a", some "r"⟩
    (by decide) (by decide) ⟨1, ["a"], ["p", "r"], [3]⟩ (by decide)

/-- C3 counterexample: an input supplying only an email whose value is
already the cluster's primary email still inserts a new secondary record
(the omitted phone never strictly-equals a stored value), although the
claim says no new record is created. -/
theorem identify_one_field_known_value_inserts :
    (⟨1, some "a", some "p", "primary", none, 0, 0, none⟩ : Contact) ∈
      singlePrimaryDb ∧
    identify singlePrimaryDb 2 1 ⟨some "a", none⟩ =
      (singlePrimaryDb ++ [⟨2, some "a", none, "secondary", some 1, 1, 1, none⟩],
       .ok ⟨1, ["a"], ["p"], [2]⟩) ∧
    singlePrimaryDb ++ [⟨2, some "a", none, "secondary", some 1, 1, 1, none⟩] ≠
      singlePrimaryDb := by decide

/-- C3 amended: with a non-empty candidate set and a primary present in
the working list, a new secondary (carrying the raw input pair — an
omitted field stored as null — and linked to the looked-up primary) is
inserted iff NOT (the input email strictly-equals some working record's
email AND the input phone strictly-equals some working record's phone),
where an omitted input field strictly-equals nothing.  In particular an
input exactly equal to an existing active record's full pair inserts
nothing, while a one-field input always inserts. -/
theorem identify_insert_condition (db : DB) (nid now : Nat)
    (inp : IdentifyInput)
    (hval : (jsFalsy inp.email && jsFalsy inp.phoneNumber) = false)
    (hcand : (candidatesOf db inp).isEmpty = false)
    (p : Contact)
    (hp : ((mergePhase db now (candidatesOf db inp)).2).find? isPrimaryc =
      some p) :
    identify db nid now inp =
      (if ((mergePhase db now (candidatesOf db inp)).2).any
            (fun c => jsStrictEq inp.email c.email) &&
          ((mergePhase db now (candidatesOf db inp)).2).any
            (fun c => jsStrictEq inp.phoneNumber c.phonenumber)
       then ((mergePhase db now (candidatesOf db inp)).1,
             respond ((mergePhase db now (candidatesOf db inp)).2))
       else ((mergePhase db now (candidatesOf db inp)).1 ++
              [⟨nid, inp.email, inp.phoneNumber, "secondary", some p.id,
                now, now, none⟩],
             respond ((mergePhase db now (candidatesOf db inp)).2 ++
              [⟨nid, inp.email, inp.phoneNumber, "secondary", some p.id,
                now, now, none⟩]))) := by
  unfold identify
  rw [if_neg (by simp [hval])]
  simp only
  rw [if_neg (by simp [hcand])]
  unfold insertPhase
  simp only
  cases he : ((mergePhase db now (candidatesOf db inp)).2).any
      (fun c => jsStrictEq inp.email c.email) <;>
    cases hq : ((mergePhase db now (candidatesOf db inp)).2).any
      (fun c => jsStrictEq inp.phoneNumber c.phonenumber) <;>
    simp [he, hq, hp]

/-- C3 amended witness: the insert-condition theorem applied to the
one-field counterexample input. -/
theorem identify_insert_condition_witness :
    identify singlePrimaryDb 2 1 ⟨some "a", none⟩ =
      (singlePrimaryDb ++ [⟨2, some "a", none, "secondary", some 1, 1, 1, none⟩],
       respond (candidatesOf singlePrimaryDb ⟨some "a", none⟩ ++
        [⟨2, some "a", none, "secondary", some 1, 1, 1, none⟩])) := by
  have h := identify_insert_condition singlePrimaryDb 2 1 ⟨some "a", none⟩
    (by decide) (by decide)
    ⟨1, some "a", some "p", "primary", none, 0, 0, none⟩ (by decide)
  rw [h]
  decide

/-- C5 counterexample: during a merge the child-relink update re-points a
soft-deleted secondary of the demoted primary, and the post-merge
re-fetch has no deleted filter, so that deleted record's values and id
appear in the returned cluster view. -/
theorem identify_merge_touches_deleted :
    lookupId twoPrimariesDeletedChildDb 3 =
      some ⟨3, some "x", some "y", "secondary", some 2, 2, 2, some 2⟩ ∧
    identify twoPrimariesDeletedChildDb 4 3 ⟨some "a", some "q"⟩ =
      ([⟨1, some "a", some "p", "primary", none, 0, 0, none⟩,
        ⟨2, some "b", some "q", "secondary", some 1, 1, 3, none⟩,
        ⟨3, some "x", some "y", "secondary", some 1, 2, 3, some 2⟩],
       .ok ⟨1, ["a", "b", "x"], ["p", "q", "y"], [2, 3]⟩) ∧
    lookupId (identify twoPrimariesDeletedChildDb 4 3 ⟨some "a", some "q"⟩).1 3 =
      some ⟨3, some "x", some "y", "secondary", some 1, 2, 3, some 2⟩ := by
  decide

/-- C5 amended (the part that holds): the candidate matching query does
exclude soft-deleted records; the merge relink and the post-merge
re-fetch do not (see the counterexample). -/
theorem candidatesOf_active (db : DB) (inp : IdentifyInput) :
    ∀ c ∈ candidatesOf db inp, c.deletedat = none := by
  intro c hc
  have hm := List.of_mem_filter hc
  have : isActive c = true := (Bool.and_eq_true _ _ |>.mp hm).2
  simpa [isActive] using this

/-- C5 amended witness. -/
theorem candidatesOf_active_witness :
    (⟨1, some "a", some "p", "primary", none, 0, 0, none⟩ : Contact).deletedat
      = none :=
  candidatesOf_active twoPrimariesDeletedChildDb ⟨some "a", some "q"⟩
    ⟨1, some "a", some "p", "primary", none, 0, 0, none⟩ (by decide)

/-- C6 counterexample: merging two primaries with the third statement
(the child-relink update) failing leaves the first demotion committed —
the store state after the failed call differs from the state before it,
and the call answers 500.  No rollback occurs. -/
theorem identifyF_midmerge_failure_keeps_mutations :
    identifyF twoPrimariesDb 3 2 ⟨some "a", some "q"⟩ 2 =
      ([⟨1, some "a", some "p", "primary", none, 0, 0, none⟩,
        ⟨2, some "b", some "q", "secondary", some 1, 1, 2, none⟩],
       .error .internal) ∧
    (identifyF twoPrimariesDb 3 2 ⟨some "a", some "q"⟩ 2).1 ≠
      twoPrimariesDb := by decide

/-- C6 amended: the handler opens no transaction; the store state is
preserved only when the very first statement (the candidate SELECT)
fails — any later failure leaves the mutations already executed
committed (see the counterexample). -/
theorem identifyF_first_statement_failure_preserves_state
    (db : DB) (nid now : Nat) (inp : IdentifyInput)
    (hval : (jsFalsy inp.email && jsFalsy inp.phoneNumber) = false) :
    identifyF db nid now inp 0 = (db, .error .internal) := by
  unfold identifyF
  simp [hval]

/-- C6 amended witness. -/
theorem identifyF_first_statement_failure_preserves_state_witness :
    identifyF twoPrimariesDb 3 2 ⟨some "a", some "q"⟩ 0 =
      (twoPrimariesDb, .error .internal) :=
  identifyF_first_statement_failure_preserves_state twoPrimariesDb 3 2
    ⟨some "a", some "q"⟩ (by decide)

/-- C7 counterexample: `buildResponse` keeps the order in which the
cluster list presents the records — here the secondary's email "b"
precedes the primary's "a" — and its secondary ids include a soft-deleted
record, contradicting the claimed primary-first ordering and
active-records-only rule. -/
theorem buildResponse_order_and_deleted :
    buildResponse
      [⟨2, some "b", some "q", "secondary", some 1, 1, 1, none⟩,
       ⟨1, some "a", some "p", "primary", none, 0, 0, none⟩,
       ⟨3, some "x", some "y", "secondary", some 1, 2, 2, some 5⟩] =
      some ⟨1, ["b", "a", "x"], ["q", "p", "y"], [2, 3]⟩ ∧
    (["b", "a", "x"] : List String).head? ≠ some "a" ∧
    (3 : Nat) ∈ ([2, 3] : List Nat) ∧
    (⟨3, some "x", some "y", "secondary", some 1, 2, 2, some 5⟩ :
      Contact).deletedat = some 5 := by decide

/-- C7 amended: when the cluster list presents the primary first and the
secondaries (in ascending creation order) after it, the projection has
the primary id, deduplicated emails/phones starting with the primary's
(empty and null values filtered), and the ids of ALL listed secondaries
in that order — soft-deleted ones included; for other list orders the
values simply follow first occurrence in list order. -/
theorem buildResponse_primary_first (p : Contact) (rest : List Contact)
    (v : IdentityView)
    (hp : p.linkprecedence = "primary")
    (hrest : ∀ c ∈ rest, c.linkprecedence = "secondary")
    (hv : buildResponse (p :: rest) = some v) :
    v.primaryContactId = p.id ∧
    v.secondaryContactIds = rest.map (·.id) ∧
    (∀ e, p.email = some e → e ≠ "" → v.emails.head? = some e) ∧
    (∀ s, p.phonenumber = some s → s ≠ "" → v.phoneNumbers.head? = some s) ∧
    v.emails.Nodup ∧ v.phoneNumbers.Nodup := by
  have hfp : (p :: rest).find? isPrimaryc = some p := by
    simp [List.find?, isPrimaryc, hp]
  unfold buildResponse at hv
  rw [hfp] at hv
  simp only [Option.some_inj] at hv
  subst hv
  refine ⟨rfl, ?_, ?_, ?_, dedupFirst_nodup _, dedupFirst_nodup _⟩
  · simp only
    rw [List.filter_cons_of_neg (by simp [hp])]
    rw [List.filter_eq_self.mpr (by
      intro c hc
      simp [hrest c hc])]
  · intro e he hne
    simp only [List.map_cons, he]
    have ht : truthyVals (some e :: rest.map (·.email)) =
        e :: truthyVals (rest.map (·.email)) := by
      unfold truthyVals
      simp [List.filterMap_cons, List.filter_cons, hne]
    rw [ht, dedupFirst_cons_head]
  · intro s hs hns
    simp only [List.map_cons, hs]
    have ht : truthyVals (some s :: rest.map (·.phonenumber)) =
        s :: truthyVals (rest.map (·.phonenumber)) := by
      unfold truthyVals
      simp [List.filterMap_cons, List.filter_cons, hns]
    rw [ht, dedupFirst_cons_head]

/-- C7 amended witness: the primary-first projection theorem applied to a
concrete primary-first cluster list. -/
theorem buildResponse_primary_first_witness :
    (buildResponse bridgedCluster = some ⟨1, ["a", "b"], ["p", "q"], [2]⟩) ∧
    (⟨1, ["a", "b"], ["p", "q"], [2]⟩ : IdentityView).secondaryContactIds =
      [2] ∧
    (⟨1, ["a", "b"], ["p", "q"], [2]⟩ : IdentityView).emails.head? =
      some "a" := by
  have h := buildResponse_primary_first
    ⟨1, some "a", some "p", "primary", none, 0, 0, none⟩
    [⟨2, some "b", some "q", "secondary", some 1, 1, 1, none⟩]
    ⟨1, ["a", "b"], ["p", "q"], [2]⟩
    (by decide) (by decide) (by decide)
  exact ⟨by decide, by decide, h.2.2.1 "a" rfl (by decide)⟩

/-- C1: whenever the candidate set holds more than one primary, the call
succeeds and merges: the surviving primary is minimal in the
(created-at, identifier) lexicographic order among the candidate
primaries (the model's stable sort over an id-ascending table realises
the identifier tiebreak); every other candidate primary ends up with
precedence secondary and linked to the survivor; every record of the
whole table that was linked to a demoted primary is re-pointed to the
survivor; and afterwards the survivor's cluster contains exactly one
primary — the survivor itself. -/
theorem identify_merge_correct (db : DB) (nid now : Nat)
    (inp : IdentifyInput)
    (hwf : WellFormed db)
    (hval : (jsFalsy inp.email && jsFalsy inp.phoneNumber) = false)
    (hmulti : 1 < (primariesOf db inp).length) :
    ∃ fp db' r,
      survivorOf db inp = some fp ∧
      identify db nid now inp = (db', r) ∧
      (∃ v, r = .ok v) ∧
      (∀ p ∈ primariesOf db inp,
        fp.createdat < p.createdat ∨
          (fp.createdat = p.createdat ∧ fp.id ≤ p.id)) ∧
      (∀ d ∈ demotedOf db inp, ∃ d', lookupId db' d.id = some d' ∧
        d'.linkprecedence = "secondary" ∧ d'.linkedid = some fp.id) ∧
      (∀ c ∈ db, (∃ d ∈ demotedOf db inp, c.linkedid = some d.id) →
        ∃ c', lookupId db' c.id = some c' ∧ c'.linkedid = some fp.id) ∧
      fp ∈ db' ∧
      (∀ c' ∈ db', (((c'.id = fp.id ∨ c'.linkedid = some fp.id) ∧
        c'.linkprecedence = "primary") ↔ c' = fp)) := by
  obtain ⟨hlt, henum, hplink⟩ := hwf
  have hne := pairwise_id_ne_of_lt hlt
  have hprims_lt : (primariesOf db inp).Pairwise
      (fun a b : Contact => a.id < b.id) :=
    hlt.sublist ((List.filter_sublist _).trans (List.filter_sublist _))
  have hprims_subdb : ∀ p ∈ primariesOf db inp, p ∈ db := by
    intro p hp
    exact List.mem_of_mem_filter (List.mem_of_mem_filter hp)
  have hperm := sortByCreated_perm (primariesOf db inp)
  cases hs : sortByCreated (primariesOf db inp) with
  | nil =>
    rw [hs] at hperm
    have hlen := hperm.length_eq
    simp only [List.length_nil] at hlen
    omega
  | cons fp td =>
  rw [hs] at hperm
  have hlex : (fp :: td).Pairwise lexLT := by
    have h := sortByCreated_pairwise_lex hprims_lt
    rwa [hs] at h
  have hsne : (fp :: td).Pairwise (fun a b : Contact => a.id ≠ b.id) := by
    refine (hperm.pairwise_iff ?_).mpr (pairwise_id_ne_of_lt hprims_lt)
    intro a b hab
    exact hab.symm
  have hfp_prims : fp ∈ primariesOf db inp :=
    hperm.mem_iff.mp (List.mem_cons_self _ _)
  have htd_prims : ∀ d ∈ td, d ∈ primariesOf db inp := fun d hd =>
    hperm.mem_iff.mp (List.mem_cons_of_mem _ hd)
  have hfp_db : fp ∈ db := hprims_subdb fp hfp_prims
  have hfp_isp : isPrimaryc fp = true := List.of_mem_filter hfp_prims
  have hfp_pre : fp.linkprecedence = "primary" := by
    simpa [isPrimaryc] using hfp_isp
  have hfp_link : fp.linkedid = none := hplink fp hfp_db hfp_pre
  have hfp_nmem : fp.id ∉ td.map (fun x => x.id) := by
    intro hmem
    rcases List.mem_map.mp hmem with ⟨d, hd, hdid⟩
    exact ((List.pairwise_cons.mp hsne).1 d hd) hdid.symm
  have hdnd : (td.map (fun x => x.id)).Nodup :=
    List.pairwise_map.mpr (List.pairwise_cons.mp hsne).2
  have hFid : ∀ c, (finalRec fp.id now (td.map (fun x => x.id)) c).id = c.id :=
    finalRec_id fp.id now (td.map (fun x => x.id))
  have hdb1 : runDemotions fp.id now db td =
      db.map (finalRec fp.id now (td.map (fun x => x.id))) := by
    rw [runDemotions_eq_map]
    apply List.map_congr_left
    intro c _
    exact foldl_step_eq_finalRec fp.id now td c hfp_nmem hdnd
  have hFfp : finalRec fp.id now (td.map (fun x => x.id)) fp = fp := by
    unfold finalRec
    rw [if_neg hfp_nmem, hfp_link]
  have hcand_ne : (candidatesOf db inp).isEmpty = false := by
    have hlen : (primariesOf db inp).length ≤ (candidatesOf db inp).length :=
      (List.filter_sublist _).length_le
    cases hc : candidatesOf db inp with
    | nil =>
      rw [hc] at hlen
      simp only [List.length_nil, Nat.le_zero] at hlen
      omega
    | cons _ _ => rfl
  have hid1 : identify db nid now inp =
      insertPhase (mergePhase db now (candidatesOf db inp)).1
        (mergePhase db now (candidatesOf db inp)).2 nid now inp := by
    unfold identify
    rw [if_neg (by simp [hval]), if_neg (by simp [hcand_ne])]
  have hmp : mergePhase db now (candidatesOf db inp) =
      (db.map (finalRec fp.id now (td.map (fun x => x.id))),
       clusterFetch fp.id
         (db.map (finalRec fp.id now (td.map (fun x => x.id))))) := by
    unfold mergePhase
    rw [if_pos (show
      1 < ((candidatesOf db inp).filter isPrimaryc).length from hmulti)]
    rw [show sortByCreated ((candidatesOf db inp).filter isPrimaryc) =
      fp :: td from hs]
    show (runDemotions fp.id now db td,
        clusterFetch fp.id (runDemotions fp.id now db td)) =
      (db.map (finalRec fp.id now (td.map (fun x => x.id))),
       clusterFetch fp.id
         (db.map (finalRec fp.id now (td.map (fun x => x.id)))))
    rw [hdb1]
  have hfp_db1 : fp ∈ db.map (finalRec fp.id now (td.map (fun x => x.id))) :=
    List.mem_map.mpr ⟨fp, hfp_db, hFfp⟩
  have hfp_ct : fp ∈ clusterFetch fp.id
      (db.map (finalRec fp.id now (td.map (fun x => x.id)))) :=
    List.mem_filter.mpr ⟨hfp_db1, by simp⟩
  have hsurv : survivorOf db inp = some fp := by
    unfold survivorOf
    rw [hs]
    rfl
  have hdem : demotedOf db inp = td := by
    unfold demotedOf
    rw [hs]
    rfl
  have hlex_min : ∀ p ∈ primariesOf db inp,
      fp.createdat < p.createdat ∨
        (fp.createdat = p.createdat ∧ fp.id ≤ p.id) := by
    intro p hp
    rcases List.mem_cons.mp (hperm.mem_iff.mpr hp) with rfl | hptd
    · exact Or.inr ⟨rfl, Nat.le_refl _⟩
    · rcases (List.pairwise_cons.mp hlex).1 p hptd with h | ⟨he, hi⟩
      · exact Or.inl h
      · exact Or.inr ⟨he, Nat.le_of_lt hi⟩
  have hgen : ∀ (extra : List Contact),
      (∀ x ∈ extra, x.linkprecedence = "secondary") →
      ((∀ d ∈ td, ∃ d',
          lookupId (db.map (finalRec fp.id now (td.map (fun x => x.id)))
            ++ extra) d.id = some d' ∧
          d'.linkprecedence = "secondary" ∧ d'.linkedid = some fp.id) ∧
       (∀ c ∈ db, (∃ d ∈ td, c.linkedid = some d.id) →
          ∃ c', lookupId (db.map (finalRec fp.id now (td.map (fun x => x.id)))
            ++ extra) c.id = some c' ∧ c'.linkedid = some fp.id) ∧
       fp ∈ db.map (finalRec fp.id now (td.map (fun x => x.id))) ++ extra ∧
       (∀ c' ∈ db.map (finalRec fp.id now (td.map (fun x => x.id))) ++ extra,
          (((c'.id = fp.id ∨ c'.linkedid = some fp.id) ∧
            c'.linkprecedence = "primary") ↔ c' = fp))) := by
    intro extra hextra
    refine ⟨?_, ?_, List.mem_append_left _ hfp_db1, ?_⟩
    · intro d hd
      have hd_db : d ∈ db := hprims_subdb d (htd_prims d hd)
      have hl1 : lookupId (db.map (finalRec fp.id now (td.map (fun x => x.id))))
          d.id = some (finalRec fp.id now (td.map (fun x => x.id)) d) := by
        rw [lookupId_map_of_id _ hFid, lookupId_of_mem hne hd_db]
        rfl
      have hFd : finalRec fp.id now (td.map (fun x => x.id)) d =
          { d with linkprecedence := "secondary", linkedid := some fp.id,
                   updatedat := now } := by
        unfold finalRec
        rw [if_pos (List.mem_map.mpr ⟨d, hd, rfl⟩)]
      refine ⟨_, lookupId_append_of_some hl1, ?_, ?_⟩
      · rw [hFd]
      · rw [hFd]
    · rintro c hc ⟨d, hd, hcd⟩
      have hl1 : lookupId (db.map (finalRec fp.id now (td.map (fun x => x.id))))
          c.id = some (finalRec fp.id now (td.map (fun x => x.id)) c) := by
        rw [lookupId_map_of_id _ hFid, lookupId_of_mem hne hc]
        rfl
      refine ⟨_, lookupId_append_of_some hl1, ?_⟩
      unfold finalRec
      by_cases hmem : c.id ∈ td.map (fun x => x.id)
      · rw [if_pos hmem]
      · rw [if_neg hmem, hcd]
        simp only
        rw [if_pos (List.mem_map.mpr ⟨d, hd, rfl⟩)]
    · intro c' hc'
      rcases List.mem_append.mp hc' with hc1 | hc2
      · rcases List.mem_map.mp hc1 with ⟨c, hcdb, rfl⟩
        constructor
        · rintro ⟨hcl, hpri⟩
          by_cases hmem : c.id ∈ td.map (fun x => x.id)
          · exfalso
            unfold finalRec at hpri
            rw [if_pos hmem] at hpri
            simp only at hpri
            exact absurd hpri (by decide)
          · cases hlk : c.linkedid with
            | some j =>
              exfalso
              by_cases hj : j ∈ td.map (fun x => x.id)
              · have hcpre : c.linkprecedence = "primary" := by
                  unfold finalRec at hpri
                  rw [if_neg hmem, hlk] at hpri
                  simp only at hpri
                  rw [if_pos hj] at hpri
                  simpa using hpri
                have := hplink c hcdb hcpre
                rw [hlk] at this
                cases this
              · have hfc : finalRec fp.id now (td.map (fun x => x.id)) c = c := by
                  unfold finalRec
                  rw [if_neg hmem, hlk]
                  simp only
                  rw [if_neg hj]
                rw [hfc] at hpri
                have := hplink c hcdb hpri
                rw [hlk] at this
                cases this
            | none =>
              have hfc : finalRec fp.id now (td.map (fun x => x.id)) c = c := by
                unfold finalRec
                rw [if_neg hmem, hlk]
              rw [hfc] at hcl ⊢
              rcases hcl with hcid | hclk
              · exact mem_id_inj hne hcdb hfp_db hcid
              · rw [hlk] at hclk
                cases hclk
        · intro h
          rw [h]
          exact ⟨Or.inl rfl, hfp_pre⟩
      · constructor
        · rintro ⟨_, hpri⟩
          have hsec := hextra c' hc2
          rw [hsec] at hpri
          exact absurd hpri (by decide)
        · intro h
          subst h
          have hsec := hextra _ hc2
          exact absurd (hsec.symm.trans hfp_pre) (by decide)
  by_cases hcnd : ((!(clusterFetch fp.id
        (db.map (finalRec fp.id now (td.map (fun x => x.id))))).any
          (fun c => jsStrictEq inp.email c.email)) ||
      (!(clusterFetch fp.id
        (db.map (finalRec fp.id now (td.map (fun x => x.id))))).any
          (fun c => jsStrictEq inp.phoneNumber c.phonenumber))) = true
  · have hfind : ((clusterFetch fp.id
        (db.map (finalRec fp.id now (td.map (fun x => x.id))))).find?
          isPrimaryc).isSome :=
      List.find?_isSome.mpr ⟨fp, hfp_ct, hfp_isp⟩
    rcases Option.isSome_iff_exists.mp hfind with ⟨p0, hp0⟩
    have hID : identify db nid now inp =
        (db.map (finalRec fp.id now (td.map (fun x => x.id))) ++
          [⟨nid, inp.email, inp.phoneNumber, "secondary", some p0.id,
            now, now, none⟩],
         respond (clusterFetch fp.id
            (db.map (finalRec fp.id now (td.map (fun x => x.id)))) ++
          [⟨nid, inp.email, inp.phoneNumber, "secondary", some p0.id,
            now, now, none⟩])) := by
      rw [hid1, hmp]
      unfold insertPhase
      simp only
      rw [if_pos hcnd, hp0]
    rcases respond_ok_of_primary (l := clusterFetch fp.id
        (db.map (finalRec fp.id now (td.map (fun x => x.id)))) ++
        [⟨nid, inp.email, inp.phoneNumber, "secondary", some p0.id,
          now, now, none⟩])
      ⟨fp, List.mem_append_left _ hfp_ct, hfp_isp⟩ with ⟨v, hv⟩
    obtain ⟨hA, hB, hC, hD⟩ := hgen
      [⟨nid, inp.email, inp.phoneNumber, "secondary", some p0.id,
        now, now, none⟩]
      (by
        intro x hx
        rcases List.mem_singleton.mp hx with rfl
        rfl)
    refine ⟨fp, _, _, hsurv, hID, ⟨v, hv⟩, hlex_min, ?_, ?_, hC, hD⟩
    · rw [hdem]
      exact hA
    · intro c hc hex
      rw [hdem] at hex
      exact hB c hc hex
  · have hID : identify db nid now inp =
        (db.map (finalRec fp.id now (td.map (fun x => x.id))),
         respond (clusterFetch fp.id
            (db.map (finalRec fp.id now (td.map (fun x => x.id)))))) := by
      rw [hid1, hmp]
      unfold insertPhase
      simp only
      rw [if_neg hcnd]
    rcases respond_ok_of_primary ⟨fp, hfp_ct, hfp_isp⟩ with ⟨v, hv⟩
    obtain ⟨hA, hB, hC, hD⟩ := hgen [] (by intro x hx; cases hx)
    rw [List.append_nil] at hC hD
    refine ⟨fp, _, _, hsurv, hID, ⟨v, hv⟩, hlex_min, ?_, ?_, hC, hD⟩
    · rw [hdem]
      intro d hd
      rcases hA d hd with ⟨d', hd1, hd2, hd3⟩
      rw [List.append_nil] at hd1
      exact ⟨d', hd1, hd2, hd3⟩
    · intro c hc hex
      rw [hdem] at hex
      rcases hB c hc hex with ⟨c', hc1, hc2⟩
      rw [List.append_nil] at hc1
      exact ⟨c', hc1, hc2⟩

/-- C1 witness: the merge theorem applied to a concrete table with two
primaries bridged by the input `(a, q)`, where the later primary carries
a (soft-deleted) child. -/
theorem identify_merge_correct_witness :
    WellFormed twoPrimariesDeletedChildDb ∧
    1 < (primariesOf twoPrimariesDeletedChildDb ⟨some "a", some "q"⟩).length ∧
    ∃ fp db' r,
      survivorOf twoPrimariesDeletedChildDb ⟨some "a", some "q"⟩ = some fp ∧
      identify twoPrimariesDeletedChildDb 4 3 ⟨some "a", some "q"⟩ =
        (db', r) ∧
      (∃ v, r = .ok v) ∧
      fp ∈ db' ∧
      (∀ c' ∈ db', (((c'.id = fp.id ∨ c'.linkedid = some fp.id) ∧
        c'.linkprecedence = "primary") ↔ c' = fp)) := by
  have h := identify_merge_correct twoPrimariesDeletedChildDb 4 3
    ⟨some "a", some "q"⟩ ⟨by decide, by decide, by decide⟩ (by decide)
    (by decide)
  obtain ⟨fp, db', r, h1, h2, h3, _, _, _, h7, h8⟩ := h
  exact ⟨⟨by decide, by decide, by decide⟩, by decide,
    fp, db', r, h1, h2, h3, h7, h8⟩
